import Mathlib

/-!
# articleSearch.js : a verification development

A shallow embedding of `src/articleSearch.js` (the module that filters the direct children of a
container on every keyup of a search input) and theorems about it.

Modelling conventions.

* A JavaScript string is a list of characters (`JSString`).
* The built-ins the module calls (`toLowerCase`, `indexOf`, `replace` with the two regular
  expressions of `String.prototype.trim`, `classList.add/remove`, `addEventListener`,
  `removeEventListener`) are modelled next to the function that calls them.
* A call that can raise a `TypeError` returns a `Completion`, which records whether the call
  returned or threw and the world it left behind.
-/

namespace ArticleSearch

/-! ## Strings -/

/-- A JavaScript string, as the list of its characters. -/
abbrev JSString := List Char

/-- The code points the regular-expression class `\s` matches: tab, line feed, vertical tab, form
feed, carriage return, space, no-break space, the Unicode space separators, the line and paragraph
separators and the byte order mark. -/
def whiteSpaceCodes : List Nat :=
  [9, 10, 11, 12, 13, 32, 160, 5760, 8192, 8193, 8194, 8195, 8196, 8197, 8198, 8199, 8200, 8201,
    8202, 8232, 8233, 8239, 8287, 12288, 65279]

/-- Whether a character belongs to the class `\s`. -/
def isSpace (c : Char) : Bool := whiteSpaceCodes.contains c.toNat

/-- Whether a code point is a capital letter of the Basic Latin or Latin-1 Supplement block:
`A`..`Z`, `À`..`Ö` and `Ø`..`Þ`. These are the code points below U+0100 that `toLowerCase`
changes; each goes to the code point 32 above it. -/
def isCapital (n : Nat) : Bool :=
  (decide (65 ≤ n) && decide (n ≤ 90)) || (decide (192 ≤ n) && decide (n ≤ 222) && n != 215)

/-- The case mapping of one character under `toLowerCase`, for the code points below U+0100; a
character above is mapped to itself. -/
def lowerChar (c : Char) : Char :=
  if isCapital c.toNat then Char.ofNat (c.toNat + 32) else c

/-- The built-in `String.prototype.toLowerCase`, character by character. The model agrees with the
built-in on strings of code points below U+0100 (Basic Latin and Latin-1). The mappings the
built-in has above U+0100 are not modelled: the letters of further alphabets, the two-character
image of U+0130 and the image of the capital sigma, which depends on its neighbours. Properties of
letter case are therefore stated for strings of code points below U+0100. -/
def toLowerCase (s : JSString) : JSString := s.map lowerChar

/-- The first `replace` of the patched `trim`: `this.replace(/^\s*|\s*$/, "")`. The expression has
no `g` flag, so only its first match is replaced; the first alternative `^\s*` always matches at
index 0, and takes the whole leading run of whitespace. -/
def replaceLeading (s : JSString) : JSString := s.dropWhile isSpace

/-- The second `replace` of the patched `trim`: `str.replace(/\s+/g, " ")`, every maximal run of
whitespace becomes one space. The flag tells whether the previous character was part of a run that
has already been replaced. -/
def replaceRuns : Bool → JSString → JSString
  | _, [] => []
  | inRun, c :: cs =>
    if isSpace c then
      (if inRun then replaceRuns true cs else ' ' :: replaceRuns true cs)
    else c :: replaceRuns false cs

/-- The patched `String.prototype.trim` of lines 144-147. -/
def trim (s : JSString) : JSString :=
  let str := replaceLeading s
  replaceRuns false str

/-- The built-in `String.prototype.indexOf(search)`: the index of the first occurrence of `q` in
`s`, or `-1`. -/
def indexOf : JSString → JSString → Int
  | [], q => if q = [] then 0 else -1
  | c :: cs, q =>
    if q.isPrefixOf (c :: cs) then 0
    else
      let r := indexOf cs q
      if r = -1 then -1 else r + 1

/-! ## The children of the container -/

/-- An `img` element, as far as `getData` reads it: its `alt` property. -/
structure Img where
  alt : JSString
  deriving DecidableEq, Repr

/-- A direct child of the container, as far as the module reads and writes it: its `textContent`,
the result of `querySelectorAll('img')` in document order, and the tokens of its `classList`. -/
structure Element where
  textContent : JSString
  images : List Img
  classList : List String
  deriving DecidableEq, Repr

/-- The class token the module toggles. -/
def hiddenClass : String := "is-hidden"

/-- The built-in `classList.remove(token)`. -/
def classListRemove (token : String) (e : Element) : Element :=
  { e with classList := e.classList.filter (fun t => t != token) }

/-- The built-in `classList.add(token)`: the token is appended unless it is already there. -/
def classListAdd (token : String) (e : Element) : Element :=
  if e.classList.contains token then e else { e with classList := e.classList ++ [token] }

/-- Whether the element carries the hidden marker. -/
def Element.isHidden (e : Element) : Bool := e.classList.contains hiddenClass

/-- The string `getData` has built before it trims: the text content followed by, for every image,
a space and its `alt`. -/
def rawContent (element : Element) : JSString :=
  element.images.foldl (fun content value => content ++ (' ' :: value.alt)) ([] ++ element.textContent)

/-- The function `getData` of lines 155-166. -/
def getData (element : Element) : JSString :=
  toLowerCase (trim (rawContent element))

/-- The callback `search` passes to `forEach`, for one child. -/
def searchChild (string : JSString) (value : Element) : Element :=
  let data := getData value
  if indexOf data string > -1 then classListRemove hiddenClass value
  else classListAdd hiddenClass value

/-! ## Values, settings and the world -/

/-- A value a caller can pass as `container` or `searchInput`, as far as the module can tell
values apart: whether it is nullish, whether its `nodeType` is truthy, and whether it has the
listener methods of an event target. A DOM node has both a truthy `nodeType` and the listener
methods. -/
inductive JSValue where
  /-- The value `undefined`. -/
  | undefined
  /-- The value `null`. -/
  | null
  /-- A DOM node, named by its identity. -/
  | node (id : Nat)
  /-- An event target that is not a node (such as `window`): listener methods, no `nodeType`. -/
  | eventTarget (id : Nat)
  /-- A value that is no event target but has a truthy `nodeType` (such as the object
  `{nodeType: 1}`): it passes the test of `checkSettings` and has no listener methods. -/
  | fakeNode
  /-- Any other value (a selector string, a number, a plain object): no `nodeType`, no listener
  methods. -/
  | plain
  deriving DecidableEq, Repr

/-- The test `v == null`. -/
def JSValue.isNullish : JSValue → Bool
  | .undefined => true
  | .null => true
  | _ => false

/-- Whether `v.nodeType` is truthy, for a `v` that is not nullish. -/
def JSValue.nodeTypeTruthy : JSValue → Bool
  | .node _ => true
  | .fakeNode => true
  | _ => false

/-- Whether `v.addEventListener` and `v.removeEventListener` are functions. -/
def JSValue.isEventTarget : JSValue → Bool
  | .node _ => true
  | .eventTarget _ => true
  | _ => false

/-- The object held by the module variable `settings`. -/
structure Settings where
  container : JSValue
  searchInput : JSValue
  deriving DecidableEq, Repr

/-- The object `defaults` of lines 38-41. -/
def defaults : Settings := { container := JSValue.null, searchInput := JSValue.null }

/-- The own properties of an options object that the module reads; `none` is a property that the
object does not have. -/
structure Options where
  container : Option JSValue
  searchInput : Option JSValue
  deriving DecidableEq, Repr

/-- The function `extend` of lines 75-84: the defaults, overwritten by every own property of the
options. -/
def extend (defaults : Settings) (options : Options) : Settings :=
  { container := match options.container with
      | some v => v
      | none => defaults.container
    searchInput := match options.searchInput with
      | some v => v
      | none => defaults.searchInput }

/-- The module variable `settings`: `undefined` until the first assignment, `null` after a
`destroy`, an object after the merge in `init`. -/
inductive SettingsVar where
  | undefined
  | null
  | obj (s : Settings)
  deriving DecidableEq, Repr

/-- The module variable `eventTimeout`: `undefined` until `destroy` sets it to `null`. -/
inductive TimeoutVar where
  | undefined
  | null
  deriving DecidableEq, Repr

/-- A line written to the console. -/
inductive ConsoleLine where
  | warn (message : String)
  | error (message : String)
  deriving DecidableEq, Repr

/-- What the module reads of a node held in the settings: the `value` of the search input (an
input element) and the `children` of the container (a parent node). -/
structure DomNode where
  value : JSString
  children : List Element
  deriving DecidableEq, Repr

/-- The module variables together with the part of the page the module touches. `listeners` lists
the identities of the event targets on which `keyupHandler` is registered for `keyup`. -/
structure World where
  settings : SettingsVar
  eventTimeout : TimeoutVar
  listeners : List Nat
  console : List ConsoleLine
  dom : Nat → DomNode

/-- How a call ends: it returns a value, or it throws; either way it leaves a world behind. -/
inductive Completion (α : Type) where
  | returned (value : α) (w : World)
  | threw (w : World)

/-- The world a call leaves behind. -/
def Completion.world {α : Type} : Completion α → World
  | .returned _ w => w
  | .threw w => w

/-- Whether the call threw. -/
def Completion.hasThrown {α : Type} : Completion α → Bool
  | .returned _ _ => false
  | .threw _ => true

/-- Two calls one after the other: when the first throws, the second is not made. -/
def Completion.andThen {α β : Type} (c : Completion α) (f : World → Completion β) :
    Completion β :=
  match c with
  | .returned _ w => f w
  | .threw w => .threw w

/-- The module right after the script has been loaded, on a page `dom`. -/
def initialWorld (dom : Nat → DomNode) : World :=
  { settings := SettingsVar.undefined, eventTimeout := TimeoutVar.undefined, listeners := [],
    console := [], dom := dom }

/-- The built-in `target.addEventListener('keyup', keyupHandler)`: registering the same callback a
second time on the same target has no effect. -/
def addEventListener (id : Nat) (w : World) : World :=
  if w.listeners.contains id then w else { w with listeners := w.listeners ++ [id] }

/-- The built-in `target.removeEventListener('keyup', keyupHandler)`. -/
def removeEventListener (id : Nat) (w : World) : World :=
  { w with listeners := w.listeners.filter (fun t => t != id) }

/-- Whether the module is uninitialized: `settings` is falsy. -/
def World.uninitialized (w : World) : Bool :=
  match w.settings with
  | .obj _ => false
  | _ => true

/-! ## The functions of the module -/

/-- The function `checkSettings` of lines 91-109. It reads the module variable `settings`, which
`init` has just assigned; on a falsy `settings` the property access throws. -/
def checkSettings (w : World) : Completion Bool :=
  match w.settings with
  | .obj s =>
    if s.searchInput.isNullish || s.container.isNullish then
      .returned false
        { w with console := w.console ++ [.warn "searchInput and/or container are undefined."] }
    else
      let w1 := if !s.searchInput.nodeTypeTruthy then
        { w with console := w.console ++ [.warn "searchInput isn't a valid node."] } else w
      let valid1 := if !s.searchInput.nodeTypeTruthy then false else true
      let w2 := if !s.container.nodeTypeTruthy then
        { w1 with console := w1.console ++ [.warn "container isn't a valid node."] } else w1
      let valid2 := if !s.container.nodeTypeTruthy then false else valid1
      .returned valid2 w2
  | _ => .threw w

/-- The function `search` of lines 127-137: every direct child of the container gets the callback.
The callback of one child reads and writes that child only, so the loop is a map over the
children. -/
def search (string : JSString) (w : World) : Completion Unit :=
  match w.settings with
  | .obj s =>
    match s.container with
    | .node j =>
      let articles := (w.dom j).children
      let filtered : DomNode :=
        { value := (w.dom j).value, children := articles.map (searchChild string) }
      .returned () { w with dom := Function.update w.dom j filtered }
    | _ => .threw w
  | _ => .threw w

/-- The function `keyupHandler` of lines 116-119. -/
def keyupHandler (w : World) : Completion Unit :=
  match w.settings with
  | .obj s =>
    match s.searchInput with
    | .node i =>
      let value := toLowerCase (w.dom i).value
      search value w
    | _ => .threw w
  | _ => .threw w

/-- The function `articleSearch.destroy` of lines 172-180. Reading a property of a nullish
`settings.searchInput` throws, and so does calling the missing `removeEventListener` of a value
that is no event target; the two assignments below are then not reached. -/
def destroy (w : World) : Completion Unit :=
  match w.settings with
  | .obj s =>
    match s.searchInput with
    | .node i | .eventTarget i =>
      let w1 := removeEventListener i w
      .returned () { w1 with settings := SettingsVar.null, eventTimeout := TimeoutVar.null }
    | _ => .threw w
  | _ => .returned () w

/-- The expression `options || {}` of line 193: a missing argument counts as an object without
properties. -/
def optionsOrEmpty (options : Option Options) : Options :=
  match options with
  | some o => o
  | none => { container := none, searchInput := none }

/-- The function `articleSearch.init` of lines 187-202. `supports` is the feature test of line 34;
`options` is `none` for a call without argument. Line 201 calls `addEventListener` of the accepted
`searchInput` without a further test, and throws when the value has no such method. -/
def init (supports : Bool) (options : Option Options) (w : World) : Completion Unit :=
  if !supports then .returned () w
  else
    match destroy w with
    | .threw w1 => .threw w1
    | .returned _ w1 =>
      let merged := extend defaults (optionsOrEmpty options)
      let w2 := { w1 with settings := SettingsVar.obj merged }
      match checkSettings w2 with
      | .threw w3 => .threw w3
      | .returned valid w3 =>
        if !valid then
          match destroy w3 with
          | .threw w4 => .threw w4
          | .returned _ w4 =>
            .returned () { w4 with console := w4.console ++ [.error "Couldn't load articleSearch"] }
        else
          match merged.searchInput with
          | .node i | .eventTarget i => .returned () (addEventListener i w3)
          | _ => .threw w3

/-! ## Concrete pages used as instances -/

/-- A JavaScript string literal. -/
def str (s : String) : JSString := s.toList

/-- The three children of the scenario: A with text "Red Apple", B with text "Blue Car" and an
image "vehicle", C without text and with an image "Green Apple Tree". -/
def scenarioChildren : List Element :=
  [ { textContent := str "Red Apple", images := [], classList := [] },
    { textContent := str "Blue Car", images := [{ alt := str "vehicle" }], classList := [] },
    { textContent := [], images := [{ alt := str "Green Apple Tree" }],
      classList := ["card", "is-hidden"] } ]

/-- A page: node 0 is the container with the given children, node 1 is the search input, whose
value is `value`. -/
def pageDom (children : List Element) (value : JSString) : Nat → DomNode := fun id =>
  if id = 0 then { value := [], children := children }
  else { value := value, children := [] }

/-- The module initialized on such a page. -/
def pageWorld (children : List Element) (value : JSString) : World :=
  { settings := SettingsVar.obj { container := JSValue.node 0, searchInput := JSValue.node 1 },
    eventTimeout := TimeoutVar.undefined, listeners := [1], console := [],
    dom := pageDom children value }

/-- The module initialized on the scenario page. -/
def scenarioWorld (value : JSString) : World := pageWorld scenarioChildren value

/-- A configuration of two nodes. -/
def nodeOptions (container searchInput : Nat) : Option Options :=
  some { container := some (JSValue.node container),
         searchInput := some (JSValue.node searchInput) }

/-- The settings merged from a configuration of two nodes. -/
def nodeSettings (container searchInput : Nat) : SettingsVar :=
  SettingsVar.obj { container := JSValue.node container, searchInput := JSValue.node searchInput }

/-- A configuration whose container is node 0 and whose `searchInput` is an object that only has
a truthy `nodeType`. -/
def fakeInputOptions : Option Options :=
  some { container := some (JSValue.node 0), searchInput := some JSValue.fakeNode }

/-- The freshly loaded module on the scenario page. -/
def freshWorld : World := initialWorld (pageDom scenarioChildren [])

/-! ## Vocabulary of the properties -/

/-- The module is at rest: either it is uninitialized and `keyupHandler` is bound nowhere, or its
settings hold two nodes and `keyupHandler` is bound on the search input and nowhere else. -/
def World.settled (w : World) : Prop :=
  (w.uninitialized = true ∧ w.listeners = []) ∨
  ∃ i j, w.settings = SettingsVar.obj { container := JSValue.node j, searchInput := JSValue.node i }
    ∧ w.listeners = [i]

/-- The condition under which `checkSettings` accepts: `searchInput` and `container` are both
non-null and both have a truthy `nodeType`. -/
def acceptable (s : Settings) : Bool :=
  !s.searchInput.isNullish && !s.container.isNullish
    && s.searchInput.nodeTypeTruthy && s.container.nodeTypeTruthy

/-- Whether `capital` is the capital form of the small letter `small` (the one `toUpperCase`
gives), for the small letters whose capital form or which themselves lie below U+0100: the
letters of Basic Latin and Latin-1, 32 code points above their capitals, and the four pairs with
one member outside: dotless `ı` (U+0131) with `I`, long `ſ` (U+017F) with `S`, `ÿ` with U+0178 and
the micro sign U+00B5 with the Greek capital U+039C. -/
def capitalOf (small capital : Char) : Bool :=
  (isCapital capital.toNat && small.toNat == capital.toNat + 32)
    || (small.toNat == 305 && capital.toNat == 73)
    || (small.toNat == 383 && capital.toNat == 83)
    || (small.toNat == 255 && capital.toNat == 376)
    || (small.toNat == 181 && capital.toNat == 924)

/-- Two characters that are equal, or of which one is the capital form of the other. -/
def caseVariants (a b : Char) : Bool :=
  a == b || capitalOf a b || capitalOf b a

/-- A string of code points below U+0100 (Basic Latin and Latin-1). -/
def isLatin1 (s : JSString) : Bool := s.all (fun c => decide (c.toNat < 256))

/-- Two strings that differ only in letter case: the same length, and case variants at every
index. -/
def differOnlyInCase : JSString → JSString → Bool
  | [], [] => true
  | a :: v, b :: w => caseVariants a b && differOnlyInCase v w
  | _, _ => false

/-- A string without any whitespace character. -/
def whitespaceFree (s : JSString) : Bool := s.all (fun c => !isSpace c)

/-- A string of whitespace characters only. -/
def allWhitespace (s : JSString) : Bool := s.all isSpace

/-- The separator-word pairs of a text, written out one after the other. -/
def joinPairs : List (JSString × JSString) → JSString
  | [] => []
  | (sep, word) :: rest => sep ++ word ++ joinPairs rest

/-- A text made of a first word and further words, each further word after its separator, with
`lead` before the first word and `tail` after the last. -/
def wordsText (lead first : JSString) (rest : List (JSString × JSString)) (tail : JSString) :
    JSString :=
  lead ++ first ++ joinPairs rest ++ tail

/-- The lowercased further words, each after one space. -/
def joinLowered : List (JSString × JSString) → JSString
  | [] => []
  | (_, word) :: rest => ' ' :: (toLowerCase word ++ joinLowered rest)

/-- The query formed by the lowercased words joined by single spaces. -/
def wordsQuery (first : JSString) (rest : List (JSString × JSString)) : JSString :=
  toLowerCase first ++ joinLowered rest

/-- Every further word is non-empty and whitespace-free, and its separator is a non-empty run of
whitespace. -/
def wellSeparated : List (JSString × JSString) → Bool
  | [] => true
  | (sep, word) :: rest =>
    !sep.isEmpty && allWhitespace sep && !word.isEmpty && whitespaceFree word && wellSeparated rest

/-- A call of one of the two public functions. -/
inductive Call where
  | init (options : Option Options)
  | destroy
  deriving DecidableEq, Repr

/-- One public call, made in the world `w`. -/
def Call.run (supports : Bool) (call : Call) (w : World) : Completion Unit :=
  match call with
  | .init options => ArticleSearch.init supports options w
  | .destroy => ArticleSearch.destroy w

/-- The world after a sequence of public calls made one after the other by the page, each in the
world the previous one left behind, whether that one returned or threw. -/
def runCalls (supports : Bool) : List Call → World → World
  | [], w => w
  | call :: calls, w => runCalls supports calls (call.run supports w).world

/-- The hidden markers of the direct children of a node, in document order. -/
def markers (w : World) (j : Nat) : List Bool := (w.dom j).children.map Element.isHidden

/-- The listeners agree with the settings: `keyupHandler` is bound nowhere, or the search input
of the settings is a node and it is bound on that node and nowhere else. -/
def World.coherent (w : World) : Prop :=
  w.listeners = [] ∨
  ∃ s i, w.settings = SettingsVar.obj s ∧ s.searchInput = JSValue.node i ∧ w.listeners = [i]

/-! ## Lemmas on the string built-ins -/

theorem indexOf_ge (s q : JSString) : -1 ≤ indexOf s q := by
  induction s with
  | nil => unfold indexOf; split <;> decide
  | cons c cs ih =>
    unfold indexOf
    split
    · decide
    · simp only []
      split
      · decide
      · omega

theorem indexOf_eq_neg_one_iff (s q : JSString) : indexOf s q = -1 ↔ ¬ q <:+: s := by
  induction s with
  | nil =>
    unfold indexOf
    by_cases h : q = []
    · simp [h]
    · simp [h]
  | cons c cs ih =>
    unfold indexOf
    have hge := indexOf_ge cs q
    by_cases hp : q.isPrefixOf (c :: cs) = true
    · rw [if_pos hp]
      have : q <+: c :: cs := List.isPrefixOf_iff_prefix.mp hp
      simp [List.infix_cons_iff, this]
    · rw [if_neg hp]
      have hnp : ¬ q <+: c :: cs := fun h => hp (List.isPrefixOf_iff_prefix.mpr h)
      simp only [List.infix_cons_iff, hnp, false_or]
      by_cases hr : indexOf cs q = -1
      · simp only [hr, if_true, true_iff]
        exact ih.mp hr
      · simp only [hr, if_false]
        constructor
        · intro h; omega
        · intro h; exact absurd (ih.mpr h) hr

/-- The test `data.indexOf(string) > -1` is substring containment. -/
theorem indexOf_gt_iff (s q : JSString) : indexOf s q > -1 ↔ q <:+: s := by
  have hge := indexOf_ge s q
  have h := indexOf_eq_neg_one_iff s q
  constructor
  · intro hgt
    by_contra hn
    have := h.mpr hn
    omega
  · intro hin
    have : indexOf s q ≠ -1 := fun e => (h.mp e) hin
    omega

theorem isHidden_classListRemove (e : Element) : (classListRemove hiddenClass e).isHidden = false := by
  simp [Element.isHidden, classListRemove, List.contains_iff_exists_mem_beq]

theorem isHidden_classListAdd (e : Element) : (classListAdd hiddenClass e).isHidden = true := by
  unfold classListAdd
  split
  · assumption
  · simp [Element.isHidden]

theorem searchChild_textContent (q : JSString) (e : Element) :
    (searchChild q e).textContent = e.textContent := by
  unfold searchChild classListRemove classListAdd
  simp only []
  split
  · rfl
  · split <;> rfl

theorem searchChild_images (q : JSString) (e : Element) :
    (searchChild q e).images = e.images := by
  unfold searchChild classListRemove classListAdd
  simp only []
  split
  · rfl
  · split <;> rfl

theorem searchChild_isHidden_of_infix (q : JSString) (e : Element) (h : q <:+: getData e) :
    (searchChild q e).isHidden = false := by
  unfold searchChild
  simp only []
  rw [if_pos ((indexOf_gt_iff _ _).mpr h)]
  exact isHidden_classListRemove e

theorem searchChild_isHidden_of_not_infix (q : JSString) (e : Element) (h : ¬ q <:+: getData e) :
    (searchChild q e).isHidden = true := by
  unfold searchChild
  simp only []
  rw [if_neg (fun hgt => h ((indexOf_gt_iff _ _).mp hgt))]
  exact isHidden_classListAdd e

theorem search_eq (q : JSString) (w : World) (s : Settings) (j : Nat)
    (hs : w.settings = SettingsVar.obj s) (hc : s.container = JSValue.node j) :
    search q w = Completion.returned ()
      { w with dom := (Function.update w.dom j
          { value := (w.dom j).value, children := (w.dom j).children.map (searchChild q) }) } := by
  unfold search
  rw [hs]
  simp only [hc]

theorem toNat_ofNat_add (n : Nat) (h : n + 32 < 55296) :
    (Char.ofNat (n + 32)).toNat = n + 32 := by
  have hv : (n + 32).isValidChar := Or.inl h
  unfold Char.ofNat
  rw [dif_pos hv]
  rfl

theorem isSpace_eq_false_of_mid (c : Char)
    (h : (33 ≤ c.toNat ∧ c.toNat ≤ 159) ∨ (161 ≤ c.toNat ∧ c.toNat ≤ 5759)) :
    isSpace c = false := by
  simp only [isSpace, whiteSpaceCodes]
  simp
  omega

theorem isCapital_iff (n : Nat) :
    isCapital n = true ↔ (65 ≤ n ∧ n ≤ 90) ∨ (192 ≤ n ∧ n ≤ 222 ∧ n ≠ 215) := by
  simp [isCapital, and_assoc]

/-- Lowercasing neither makes nor unmakes a whitespace character. -/
theorem isSpace_lowerChar (c : Char) : isSpace (lowerChar c) = isSpace c := by
  unfold lowerChar
  split
  · rename_i h
    have hc := (isCapital_iff c.toNat).mp h
    have h1 : (Char.ofNat (c.toNat + 32)).toNat = c.toNat + 32 := toNat_ofNat_add _ (by omega)
    rw [isSpace_eq_false_of_mid _ (by omega), isSpace_eq_false_of_mid c (by omega)]
  · rfl

theorem lowerChar_space : lowerChar ' ' = ' ' := by decide

theorem replaceLeading_toLowerCase (s : JSString) :
    toLowerCase (replaceLeading s) = replaceLeading (toLowerCase s) := by
  induction s with
  | nil => rfl
  | cons c cs ih =>
    simp only [replaceLeading, toLowerCase, List.map_cons, List.dropWhile_cons,
      isSpace_lowerChar] at ih ⊢
    split
    · exact ih
    · rfl

theorem replaceRuns_cons_space (b : Bool) (c : Char) (cs : JSString) (h : isSpace c = true) :
    replaceRuns b (c :: cs)
      = if b = true then replaceRuns true cs else ' ' :: replaceRuns true cs := by
  simp only [replaceRuns, h, if_true]

theorem replaceRuns_cons_other (b : Bool) (c : Char) (cs : JSString) (h : isSpace c = false) :
    replaceRuns b (c :: cs) = c :: replaceRuns false cs := by
  simp only [replaceRuns, h, Bool.false_eq_true, if_false]

theorem replaceRuns_toLowerCase (b : Bool) (s : JSString) :
    toLowerCase (replaceRuns b s) = replaceRuns b (toLowerCase s) := by
  induction s generalizing b with
  | nil => rfl
  | cons c cs ih =>
    have hmap : toLowerCase (c :: cs) = lowerChar c :: toLowerCase cs := rfl
    rw [hmap]
    cases hc : isSpace c
    · rw [replaceRuns_cons_other b c cs hc,
        replaceRuns_cons_other b _ _ ((isSpace_lowerChar c).trans hc)]
      show lowerChar c :: toLowerCase (replaceRuns false cs) = _
      rw [ih]
    · rw [replaceRuns_cons_space b c cs hc,
        replaceRuns_cons_space b _ _ ((isSpace_lowerChar c).trans hc)]
      cases b
      · simp only [Bool.false_eq_true, if_false]
        show lowerChar ' ' :: toLowerCase (replaceRuns true cs) = _
        rw [ih, lowerChar_space]
      · simp only [if_true]
        exact ih true

/-- Lowercasing commutes with the patched `trim`. -/
theorem trim_toLowerCase (s : JSString) : toLowerCase (trim s) = trim (toLowerCase s) := by
  simp only [trim, replaceRuns_toLowerCase, replaceLeading_toLowerCase]

theorem replaceRuns_append (b : Bool) (p t : JSString) :
    ∃ b', replaceRuns b (p ++ t) = replaceRuns b p ++ replaceRuns b' t := by
  induction p generalizing b with
  | nil => exact ⟨b, rfl⟩
  | cons c cs ih =>
    rw [List.cons_append]
    cases hc : isSpace c
    · obtain ⟨b', hb'⟩ := ih false
      refine ⟨b', ?_⟩
      rw [replaceRuns_cons_other b c _ hc, replaceRuns_cons_other b c _ hc, hb',
        List.cons_append]
    · obtain ⟨b', hb'⟩ := ih true
      refine ⟨b', ?_⟩
      rw [replaceRuns_cons_space b c _ hc, replaceRuns_cons_space b c _ hc, hb']
      cases b
      · simp only [Bool.false_eq_true, if_false, List.cons_append]
      · simp only [if_true]

/-- A non-empty whitespace-free word passes through the run replacement unchanged, and ends any
run. -/
theorem replaceRuns_word (b : Bool) (u t : JSString) (hu : whitespaceFree u = true)
    (hne : u ≠ []) : replaceRuns b (u ++ t) = u ++ replaceRuns false t := by
  induction u generalizing b with
  | nil => exact absurd rfl hne
  | cons c cs ih =>
    simp only [whitespaceFree, List.all_cons, Bool.and_eq_true, Bool.not_eq_true'] at hu
    rw [List.cons_append, replaceRuns_cons_other b c _ hu.1, List.cons_append]
    by_cases hcs : cs = []
    · subst hcs; rfl
    · rw [ih false hu.2 hcs]

theorem infix_replaceRuns (b : Bool) (u s : JSString) (hu : whitespaceFree u = true)
    (h : u <:+: s) : u <:+: replaceRuns b s := by
  by_cases hne : u = []
  · subst hne; exact List.nil_infix
  · obtain ⟨p, r, rfl⟩ := h
    rw [List.append_assoc]
    obtain ⟨b', hb'⟩ := replaceRuns_append b p (u ++ r)
    rw [hb', replaceRuns_word b' u r hu hne]
    exact ⟨replaceRuns b p, replaceRuns false r, by simp⟩

theorem infix_replaceLeading (u s : JSString) (hu : whitespaceFree u = true) (h : u <:+: s) :
    u <:+: replaceLeading s := by
  induction s with
  | nil => exact h
  | cons c cs ih =>
    simp only [replaceLeading, List.dropWhile_cons] at ih ⊢
    split
    · rename_i hc
      rcases List.infix_cons_iff.mp h with hp | hi
      · cases u with
        | nil => exact List.nil_infix
        | cons a as =>
          have hac : a = c := by
            obtain ⟨t, ht⟩ := hp
            simp only [List.cons_append, List.cons.injEq] at ht
            exact ht.1
          simp only [whitespaceFree, List.all_cons, Bool.and_eq_true, Bool.not_eq_true'] at hu
          rw [hac, hc] at hu
          exact absurd hu.1 (by decide)
      · exact ih hi
    · exact h

/-- A whitespace-free substring of a string is a substring of the trimmed string. -/
theorem infix_trim (u s : JSString) (hu : whitespaceFree u = true) (h : u <:+: s) :
    u <:+: trim s :=
  infix_replaceRuns false u _ hu (infix_replaceLeading u s hu h)

theorem foldl_alt_eq (images : List Img) (acc : JSString) :
    images.foldl (fun content value => content ++ (' ' :: value.alt)) acc
      = acc ++ (images.map (fun value => ' ' :: value.alt)).flatten := by
  induction images generalizing acc with
  | nil => simp
  | cons im ims ih => simp [List.foldl_cons, ih, List.append_assoc]

/-- The string `getData` builds before trimming: the text, then a space and an `alt` per image. -/
theorem rawContent_eq (e : Element) :
    rawContent e = e.textContent ++ (e.images.map (fun value => ' ' :: value.alt)).flatten := by
  unfold rawContent
  rw [foldl_alt_eq]
  rfl

theorem textContent_infix_rawContent (e : Element) : e.textContent <:+: rawContent e := by
  rw [rawContent_eq]
  exact (List.prefix_append _ _).isInfix

theorem alt_infix_rawContent (e : Element) (im : Img) (h : im ∈ e.images) :
    im.alt <:+: rawContent e := by
  rw [rawContent_eq]
  have h1 : (' ' :: im.alt) <:+: (e.images.map (fun value => ' ' :: value.alt)).flatten :=
    List.infix_of_mem_flatten (List.mem_map_of_mem _ h)
  have h2 : im.alt <:+: (' ' :: im.alt) := (List.suffix_cons _ _).isInfix
  exact (h2.trans h1).trans (List.suffix_append _ _).isInfix

theorem infix_map_lowerChar {u s : JSString} (h : u <:+: s) : toLowerCase u <:+: toLowerCase s := by
  obtain ⟨p, r, rfl⟩ := h
  exact ⟨toLowerCase p, toLowerCase r, by simp [toLowerCase]⟩

theorem whitespaceFree_toLowerCase (u : JSString) :
    whitespaceFree (toLowerCase u) = whitespaceFree u := by
  induction u with
  | nil => rfl
  | cons c cs ih =>
    simp only [whitespaceFree, toLowerCase, List.map_cons, List.all_cons, isSpace_lowerChar] at ih ⊢
    rw [ih]

theorem capitalOf_lowerChar (small capital : Char) (h : capitalOf small capital = true)
    (hs : small.toNat < 256) (hc : capital.toNat < 256) :
    lowerChar capital = small ∧ lowerChar small = small := by
  simp only [capitalOf, Bool.or_eq_true, Bool.and_eq_true, beq_iff_eq] at h
  have h' : isCapital capital.toNat = true ∧ small.toNat = capital.toNat + 32 := by
    rcases h with (((h | h) | h) | h) | h
    · exact h
    · omega
    · omega
    · omega
    · omega
  have hcap := (isCapital_iff capital.toNat).mp h'.1
  have hsmall : ¬ isCapital small.toNat = true := by
    rw [isCapital_iff]
    omega
  constructor
  · unfold lowerChar
    rw [if_pos h'.1, ← h'.2, Char.ofNat_toNat]
  · unfold lowerChar
    rw [if_neg hsmall]

theorem caseVariants_lowerChar (a b : Char) (h : caseVariants a b = true)
    (ha : a.toNat < 256) (hb : b.toNat < 256) : lowerChar a = lowerChar b := by
  simp only [caseVariants, Bool.or_eq_true, beq_iff_eq] at h
  rcases h with (h | h) | h
  · rw [h]
  · obtain ⟨h1, h2⟩ := capitalOf_lowerChar a b h ha hb
    rw [h1, h2]
  · obtain ⟨h1, h2⟩ := capitalOf_lowerChar b a h hb ha
    rw [h1, h2]

theorem differOnlyInCase_toLowerCase (v w : JSString) (h : differOnlyInCase v w = true)
    (hv : isLatin1 v = true) (hw : isLatin1 w = true) : toLowerCase v = toLowerCase w := by
  induction v generalizing w with
  | nil =>
    cases w with
    | nil => rfl
    | cons b w => simp [differOnlyInCase] at h
  | cons a v ih =>
    cases w with
    | nil => simp [differOnlyInCase] at h
    | cons b w =>
      simp only [differOnlyInCase, Bool.and_eq_true] at h
      simp only [isLatin1, List.all_cons, Bool.and_eq_true, decide_eq_true_eq] at hv hw
      simp only [toLowerCase, List.map_cons] at ih ⊢
      rw [caseVariants_lowerChar a b h.1 hv.1 hw.1, ih w h.2 hv.2 hw.2]

/-- The content string contains every lowercased whitespace-free substring of the string `getData`
has built before trimming. -/
theorem toLowerCase_infix_getData (e : Element) (u : JSString) (hu : whitespaceFree u = true)
    (h : u <:+: rawContent e) : toLowerCase u <:+: getData e :=
  infix_map_lowerChar (infix_trim u _ hu h)

theorem replaceLeading_run (lead t : JSString) (h : allWhitespace lead = true) :
    replaceLeading (lead ++ t) = replaceLeading t := by
  induction lead with
  | nil => rfl
  | cons c cs ih =>
    simp only [allWhitespace, List.all_cons, Bool.and_eq_true] at h
    simp only [replaceLeading, List.cons_append, List.dropWhile_cons, h.1, if_true]
    exact ih h.2

theorem replaceLeading_word (u t : JSString) (hu : whitespaceFree u = true) (hne : u ≠ []) :
    replaceLeading (u ++ t) = u ++ t := by
  cases u with
  | nil => exact absurd rfl hne
  | cons c cs =>
    simp only [whitespaceFree, List.all_cons, Bool.and_eq_true, Bool.not_eq_true'] at hu
    simp [replaceLeading, List.dropWhile_cons, hu.1]

theorem replaceRuns_true_run (sep t : JSString) (h : allWhitespace sep = true) :
    replaceRuns true (sep ++ t) = replaceRuns true t := by
  induction sep with
  | nil => rfl
  | cons c cs ih =>
    simp only [allWhitespace, List.all_cons, Bool.and_eq_true] at h
    rw [List.cons_append, replaceRuns_cons_space true c _ h.1, if_pos rfl]
    exact ih h.2

/-- A non-empty run of whitespace becomes one space. -/
theorem replaceRuns_false_run (sep t : JSString) (h : allWhitespace sep = true)
    (hne : sep ≠ []) : replaceRuns false (sep ++ t) = ' ' :: replaceRuns true t := by
  cases sep with
  | nil => exact absurd rfl hne
  | cons c cs =>
    simp only [allWhitespace, List.all_cons, Bool.and_eq_true] at h
    rw [List.cons_append, replaceRuns_cons_space false c _ h.1, if_neg (by decide)]
    rw [replaceRuns_true_run cs t h.2]

theorem replaceRuns_joinPairs (rest : List (JSString × JSString)) (tail : JSString)
    (h : wellSeparated rest = true) :
    toLowerCase (replaceRuns false (joinPairs rest ++ tail))
      = joinLowered rest ++ toLowerCase (replaceRuns false tail) := by
  induction rest with
  | nil => rfl
  | cons p rest ih =>
    obtain ⟨sep, word⟩ := p
    simp only [wellSeparated, Bool.and_eq_true, Bool.not_eq_true', List.isEmpty_eq_false] at h
    obtain ⟨⟨⟨⟨hsep, hws⟩, hword⟩, hfree⟩, hrest⟩ := h
    have e : joinPairs ((sep, word) :: rest) ++ tail
        = sep ++ (word ++ (joinPairs rest ++ tail)) := by
      simp only [joinPairs, List.append_assoc]
    rw [e, replaceRuns_false_run sep _ hws hsep, replaceRuns_word true word _ hfree hword]
    show lowerChar ' ' :: toLowerCase (word ++ replaceRuns false (joinPairs rest ++ tail)) = _
    have e2 : toLowerCase (word ++ replaceRuns false (joinPairs rest ++ tail))
        = toLowerCase word ++ toLowerCase (replaceRuns false (joinPairs rest ++ tail)) := by
      simp only [toLowerCase, List.map_append]
    rw [e2, ih hrest, lowerChar_space]
    simp only [joinLowered, List.cons_append, List.append_assoc]

/-- The content string of a text of separated words starts with the lowercased words joined by
single spaces. -/
theorem wordsQuery_prefix_getData (e : Element) (lead first : JSString)
    (rest : List (JSString × JSString)) (tail : JSString) (himg : e.images = [])
    (htext : e.textContent = wordsText lead first rest tail)
    (hlead : allWhitespace lead = true) (hfirst : first ≠ [])
    (hfree : whitespaceFree first = true) (hrest : wellSeparated rest = true) :
    wordsQuery first rest <+: getData e := by
  have hraw : rawContent e = lead ++ (first ++ (joinPairs rest ++ tail)) := by
    rw [rawContent_eq, himg, htext]
    simp [wordsText, List.append_assoc]
  unfold getData trim
  rw [hraw, replaceLeading_run lead _ hlead, replaceLeading_word first _ hfree hfirst,
    replaceRuns_word false first _ hfree hfirst]
  have e2 : toLowerCase (first ++ replaceRuns false (joinPairs rest ++ tail))
      = toLowerCase first ++ toLowerCase (replaceRuns false (joinPairs rest ++ tail)) := by
    simp only [toLowerCase, List.map_append]
  rw [e2, replaceRuns_joinPairs rest tail hrest]
  exact ⟨toLowerCase (replaceRuns false tail), by simp [wordsQuery, List.append_assoc]⟩

theorem search_child_visible (q : JSString) (w : World) (s : Settings) (j n : Nat) (c : Element)
    (hs : w.settings = SettingsVar.obj s) (hc : s.container = JSValue.node j)
    (hn : (w.dom j).children[n]? = some c) (hq : q <:+: getData c) :
    ∃ w' c', search q w = Completion.returned () w' ∧ (w'.dom j).children[n]? = some c' ∧
      c'.isHidden = false := by
  refine ⟨_, searchChild q c, search_eq q w s j hs hc, ?_, searchChild_isHidden_of_infix q c hq⟩
  simp [hn]

/-! ## The filtering pass -/

/-- The scenario of the specification, evaluated: the query "apple" leaves A and C visible and
hides B, the empty query shows all three, the query "vehicle" leaves only B visible. -/
theorem scenario_evaluated :
    (scenarioChildren.map (searchChild (str "apple"))).map Element.isHidden = [false, true, false] ∧
    (scenarioChildren.map (searchChild (str ""))).map Element.isHidden = [false, false, false] ∧
    (scenarioChildren.map (searchChild (str "vehicle"))).map Element.isHidden
      = [true, false, true] := by
  decide

/-- C1: after the filtering pass `search q`, every direct child of the container is visible when
the content string `getData` derives for it contains `q` as a substring (the test
`indexOf > -1`), and carries the hidden marker otherwise; the pass returns, keeps the number of
children and leaves their text and images as they were. -/
theorem search_hides_exactly_the_non_matching (w : World) (s : Settings) (j : Nat)
    (q : JSString) (hs : w.settings = SettingsVar.obj s) (hc : s.container = JSValue.node j) :
    ∃ w', search q w = Completion.returned () w' ∧
      (w'.dom j).children.length = (w.dom j).children.length ∧
      ∀ (n : Nat) (c : Element), (w.dom j).children[n]? = some c →
        ∃ c', (w'.dom j).children[n]? = some c' ∧
          c'.textContent = c.textContent ∧ c'.images = c.images ∧
          (indexOf (getData c) q > -1 ↔ q <:+: getData c) ∧
          (q <:+: getData c → c'.isHidden = false) ∧
          (¬ q <:+: getData c → c'.isHidden = true) := by
  refine ⟨_, search_eq q w s j hs hc, ?_, ?_⟩
  · simp
  · intro n c hn
    refine ⟨searchChild q c, ?_, searchChild_textContent q c, searchChild_images q c,
      indexOf_gt_iff _ _, searchChild_isHidden_of_infix q c,
      searchChild_isHidden_of_not_infix q c⟩
    simp [hn]

/-- C1, at the scenario page with the query "apple". -/
theorem search_hides_exactly_the_non_matching_witness :
    (scenarioWorld []).settings
        = SettingsVar.obj { container := JSValue.node 0, searchInput := JSValue.node 1 } ∧
    ∃ w', search (str "apple") (scenarioWorld []) = Completion.returned () w' ∧
      (w'.dom 0).children.length = ((scenarioWorld []).dom 0).children.length ∧
      ∀ (n : Nat) (c : Element), ((scenarioWorld []).dom 0).children[n]? = some c →
        ∃ c', (w'.dom 0).children[n]? = some c' ∧
          c'.textContent = c.textContent ∧ c'.images = c.images ∧
          (indexOf (getData c) (str "apple") > -1 ↔ str "apple" <:+: getData c) ∧
          (str "apple" <:+: getData c → c'.isHidden = false) ∧
          (¬ str "apple" <:+: getData c → c'.isHidden = true) :=
  ⟨rfl, search_hides_exactly_the_non_matching (scenarioWorld []) _ 0 (str "apple") rfl rfl⟩

/-- C6: whatever the children, their text, their images and the markers set earlier, after
`search("")`, and after `keyupHandler` has run while the value of the input is empty, no direct
child of the container carries the hidden marker. -/
theorem empty_query_shows_every_child (w : World) (s : Settings) (i j : Nat)
    (hs : w.settings = SettingsVar.obj s) (hc : s.container = JSValue.node j)
    (hi : s.searchInput = JSValue.node i) (hv : (w.dom i).value = []) :
    (∃ w', search [] w = Completion.returned () w' ∧
      (w'.dom j).children.length = (w.dom j).children.length ∧
      ∀ c ∈ (w'.dom j).children, c.isHidden = false) ∧
    (∃ w', keyupHandler w = Completion.returned () w' ∧
      (w'.dom j).children.length = (w.dom j).children.length ∧
      ∀ c ∈ (w'.dom j).children, c.isHidden = false) := by
  have key : ∃ w', search [] w = Completion.returned () w' ∧
      (w'.dom j).children.length = (w.dom j).children.length ∧
      ∀ c ∈ (w'.dom j).children, c.isHidden = false := by
    refine ⟨_, search_eq [] w s j hs hc, by simp, ?_⟩
    intro c hcmem
    simp only [Function.update_same, List.mem_map] at hcmem
    obtain ⟨e, _, rfl⟩ := hcmem
    exact searchChild_isHidden_of_infix [] e List.nil_infix
  refine ⟨key, ?_⟩
  have hk : keyupHandler w = search [] w := by
    unfold keyupHandler
    rw [hs]
    simp only [hi, hv, toLowerCase, List.map_nil]
  rw [hk]
  exact key

/-- C6, at the scenario page, where C starts hidden and the input is empty. -/
theorem empty_query_shows_every_child_witness :
    (∃ w', search [] (scenarioWorld []) = Completion.returned () w' ∧
      (w'.dom 0).children.length = ((scenarioWorld []).dom 0).children.length ∧
      ∀ c ∈ (w'.dom 0).children, c.isHidden = false) ∧
    (∃ w', keyupHandler (scenarioWorld []) = Completion.returned () w' ∧
      (w'.dom 0).children.length = ((scenarioWorld []).dom 0).children.length ∧
      ∀ c ∈ (w'.dom 0).children, c.isHidden = false) :=
  empty_query_shows_every_child (scenarioWorld []) _ 1 0 rfl rfl rfl rfl

/-! ## The content string -/

/-- C2: the content string `getData` returns is not trimmed at its end. The first `replace` of the
patched `trim` has no `g` flag and removes the leading whitespace only, so the whitespace after the
text, and the space appended for an image with an empty `alt`, survive as one trailing space. -/
theorem getData_keeps_a_trailing_space :
    getData { textContent := str "Red Apple\n", images := [], classList := [] }
      = str "red apple " ∧
    getData { textContent := str "  Kitten", images := [{ alt := [] }], classList := [] }
      = str "kitten " ∧
    (getData { textContent := str "Red Apple\n", images := [], classList := [] }).getLast?.map
      isSpace = some true := by
  decide

/-! ## `init` and `destroy` -/

theorem destroy_of_uninitialized (w : World) (h : w.uninitialized = true) :
    destroy w = Completion.returned () w := by
  unfold World.uninitialized at h
  unfold destroy
  cases hs : w.settings with
  | undefined => rfl
  | null => rfl
  | obj s => rw [hs] at h; simp at h

theorem destroy_returned_uninitialized (w w' : World) (u : Unit)
    (h : destroy w = Completion.returned u w') : w'.uninitialized = true := by
  unfold destroy at h
  cases hs : w.settings with
  | undefined =>
    rw [hs] at h
    injection h with _ h2
    rw [← h2]; simp [World.uninitialized, hs]
  | null =>
    rw [hs] at h
    injection h with _ h2
    rw [← h2]; simp [World.uninitialized, hs]
  | obj s =>
    rw [hs] at h
    cases hi : s.searchInput with
    | undefined => simp only [hi] at h; cases h
    | null => simp only [hi] at h; cases h
    | plain => simp only [hi] at h; cases h
    | fakeNode => simp only [hi] at h; cases h
    | node i =>
      simp only [hi] at h
      injection h with _ h2
      rw [← h2]; rfl
    | eventTarget i =>
      simp only [hi] at h
      injection h with _ h2
      rw [← h2]; rfl

/-- The function `init` starts with `destroy`, so a `destroy` right before it changes nothing. -/
theorem init_eq_destroy_andThen_init (options : Option Options) (w : World) :
    init true options w = (destroy w).andThen (init true options) := by
  cases hd : destroy w with
  | threw w1 =>
    simp [init, hd, Completion.andThen]
  | returned u w1 =>
    have hu := destroy_returned_uninitialized w w1 u hd
    have hd1 := destroy_of_uninitialized w1 hu
    simp [init, hd, hd1, Completion.andThen]

theorem andThen_assoc {α β γ : Type} (c : Completion α) (f : World → Completion β)
    (g : World → Completion γ) :
    (c.andThen f).andThen g = c.andThen (fun w => (f w).andThen g) := by
  cases c <;> rfl

theorem init_valid_of_destroy (w w1 : World) (u : Unit) (i j : Nat)
    (hd : destroy w = Completion.returned u w1) :
    init true (some { container := some (JSValue.node j), searchInput := some (JSValue.node i) }) w
      = Completion.returned () (addEventListener i { w1 with settings := (SettingsVar.obj
          { container := JSValue.node j, searchInput := JSValue.node i }) }) := by
  simp [init, hd, extend, optionsOrEmpty, checkSettings, JSValue.isNullish, JSValue.nodeTypeTruthy]

theorem destroy_of_settled (w : World) (h : w.settled) :
    ∃ w1, destroy w = Completion.returned () w1 ∧ w1.listeners = [] ∧ w1.console = w.console ∧
      w1.dom = w.dom := by
  rcases h with ⟨hu, hl⟩ | ⟨i, j, hs, hl⟩
  · exact ⟨w, destroy_of_uninitialized w hu, hl, rfl, rfl⟩
  · refine ⟨{ removeEventListener i w with
        settings := SettingsVar.null, eventTimeout := TimeoutVar.null }, ?_, ?_, rfl, rfl⟩
    · unfold destroy
      rw [hs]
    · simp [removeEventListener, hl]

theorem init_valid_of_settled (w : World) (i j : Nat) (h : w.settled) :
    ∃ w', init true
        (some { container := some (JSValue.node j), searchInput := some (JSValue.node i) }) w
        = Completion.returned () w' ∧
      w'.settings
        = SettingsVar.obj { container := JSValue.node j, searchInput := JSValue.node i } ∧
      w'.listeners = [i] ∧ w'.console = w.console ∧ w'.dom = w.dom := by
  obtain ⟨w1, hd, hl, hc, hdom⟩ := destroy_of_settled w h
  refine ⟨_, init_valid_of_destroy w w1 () i j hd, ?_, ?_, ?_, ?_⟩
  · simp only [addEventListener, hl]; rfl
  · simp only [addEventListener, hl]; rfl
  · simp only [addEventListener, hl]; exact hc
  · simp only [addEventListener, hl]; exact hdom

/-- C3: `init` called without argument on the freshly loaded module, in a supporting environment,
throws: `checkSettings` rejects the merged defaults, and the `destroy` of the failure branch reads
`removeEventListener` of the null `searchInput`. The line `console.error` is not reached, the
settings keep the rejected object, and a later `destroy` throws as well. The same happens for the
empty object and for a `searchInput` that is a value without listener methods. -/
theorem init_without_argument_throws (dom : Nat → DomNode) :
    init true none (initialWorld dom)
      = Completion.threw { initialWorld dom with
          settings := SettingsVar.obj { container := JSValue.null, searchInput := JSValue.null }
          console := [ConsoleLine.warn "searchInput and/or container are undefined."] } ∧
    (init true (some { container := none, searchInput := none }) (initialWorld dom)).hasThrown
      = true ∧
    (init true (some { container := some (JSValue.node 0), searchInput := some JSValue.plain })
      (initialWorld dom)).hasThrown = true ∧
    (destroy (init true none (initialWorld dom)).world).hasThrown = true := by
  refine ⟨rfl, rfl, rfl, rfl⟩

/-- C4: after `init` with a configuration that has a container node and no `searchInput`, the
module is not uninitialized: the call throws inside the `destroy` of the failure branch and the
settings keep the rejected configuration. No listener is bound. -/
theorem init_without_searchInput_keeps_settings (dom : Nat → DomNode) :
    (init true (some { container := some (JSValue.node 0), searchInput := none })
      (initialWorld dom)).world.settings
      = SettingsVar.obj { container := JSValue.node 0, searchInput := JSValue.null } ∧
    (init true (some { container := some (JSValue.node 0), searchInput := none })
      (initialWorld dom)).world.uninitialized = false ∧
    (init true (some { container := some (JSValue.node 0), searchInput := none })
      (initialWorld dom)).hasThrown = true ∧
    (init true (some { container := some (JSValue.node 0), searchInput := none })
      (initialWorld dom)).world.listeners = [] := by
  refine ⟨rfl, rfl, rfl, rfl⟩

/-- The failure branch as it was meant to run: from a module at rest, a configuration without
container whose `searchInput` is a node is rejected, `init` returns, the module is uninitialized,
no listener is bound and the error is logged. -/
theorem init_without_container_resets (w : World) (i : Nat) (hu : w.uninitialized = true)
    (hl : w.listeners = []) :
    init true (some { container := none, searchInput := some (JSValue.node i) }) w
      = Completion.returned ()
          { w with
            settings := SettingsVar.null
            eventTimeout := TimeoutVar.null
            console := w.console ++ [ConsoleLine.warn "searchInput and/or container are undefined.",
              ConsoleLine.error "Couldn't load articleSearch"] } := by
  have hd := destroy_of_uninitialized w hu
  simp only [init, hd]
  simp [extend, optionsOrEmpty, defaults, checkSettings, JSValue.isNullish, destroy,
    removeEventListener, hl]

/-- C5: for two configurations of nodes, `init(c1); init(c2)` ends in the same way and in the same
world as `init(c1); destroy(); init(c2)`, from every state of the module; from a module at rest
both return, the active settings are `c2`, `keyupHandler` is bound on the search input of `c2` and
nowhere else, so it is not left on the search input of `c1` unless that is the same node. -/
theorem init_twice_eq_destroy_between (w : World) (i1 j1 i2 j2 : Nat) :
    (init true (nodeOptions j1 i1) w).andThen (init true (nodeOptions j2 i2))
      = ((init true (nodeOptions j1 i1) w).andThen destroy).andThen (init true (nodeOptions j2 i2))
    ∧ (w.settled →
      ∃ w', (init true (nodeOptions j1 i1) w).andThen (init true (nodeOptions j2 i2))
          = Completion.returned () w' ∧
        w'.settings = nodeSettings j2 i2 ∧ w'.listeners = [i2] ∧
        (i1 = i2 ∨ i1 ∉ w'.listeners)) := by
  constructor
  · rw [andThen_assoc]
    congr 1
    funext w1
    exact init_eq_destroy_andThen_init _ w1
  · intro h
    obtain ⟨w1, h1, hs1, hl1, _, _⟩ := init_valid_of_settled w i1 j1 h
    have hsettled : w1.settled := Or.inr ⟨i1, j1, hs1, hl1⟩
    obtain ⟨w2, h2, hs2, hl2, _, _⟩ := init_valid_of_settled w1 i2 j2 hsettled
    refine ⟨w2, ?_, hs2, hl2, ?_⟩
    · unfold nodeOptions
      rw [h1]
      exact h2
    · by_cases e : i1 = i2
      · exact Or.inl e
      · exact Or.inr (by rw [hl2]; simpa using e)

/-- C5, from the freshly loaded module, with the search inputs 1 and 2. -/
theorem init_twice_eq_destroy_between_witness :
    freshWorld.settled ∧
    ∃ w', (init true (nodeOptions 0 1) freshWorld).andThen (init true (nodeOptions 0 2))
        = Completion.returned () w' ∧
      w'.settings = nodeSettings 0 2 ∧ w'.listeners = [2] ∧ (1 = 2 ∨ 1 ∉ w'.listeners) :=
  ⟨Or.inl ⟨rfl, rfl⟩,
    (init_twice_eq_destroy_between freshWorld 1 0 2 0).2 (Or.inl ⟨rfl, rfl⟩)⟩

theorem extend_eq_accepted (options : Option Options) (c : JSValue) (i : Nat)
    (hc : c.isNullish = false)
    (h : extend defaults (optionsOrEmpty options)
      = { container := c, searchInput := JSValue.node i }) :
    options = some { container := some c, searchInput := some (JSValue.node i) } := by
  rcases options with _ | ⟨oc, osi⟩
  · simp [extend, optionsOrEmpty, defaults] at h
  · rcases oc with _ | oc <;> rcases osi with _ | osi
    · simp [extend, optionsOrEmpty, defaults] at h
    · simp [extend, optionsOrEmpty, defaults] at h
      rw [← h.1] at hc
      simp [JSValue.isNullish] at hc
    · simp [extend, optionsOrEmpty, defaults] at h
    · simp [extend, optionsOrEmpty, defaults] at h
      obtain ⟨rfl, rfl⟩ := h
      rfl

/-- C10, as stated, fails: for a `searchInput` that is no event target and has a truthy `nodeType`
(the object `{nodeType: 1}`) next to a container node, `checkSettings` returns true, and `init`
throws at the unguarded `addEventListener` of line 201 with no listener bound on any element. -/
theorem init_accepts_fake_node_and_throws :
    acceptable (extend defaults (optionsOrEmpty fakeInputOptions)) = true ∧
    (∃ w3, checkSettings
        { freshWorld with
          settings := (SettingsVar.obj (extend defaults (optionsOrEmpty fakeInputOptions))) }
        = Completion.returned true w3) ∧
    (init true fakeInputOptions freshWorld).hasThrown = true ∧
    (init true fakeInputOptions freshWorld).world.listeners = [] ∧
    ¬ ∃ t, t ∈ (init true fakeInputOptions freshWorld).world.listeners := by
  refine ⟨rfl, ⟨_, rfl⟩, rfl, rfl, ?_⟩
  rintro ⟨t, ht⟩
  have hl : (init true fakeInputOptions freshWorld).world.listeners = [] := rfl
  rw [hl] at ht
  cases ht

/-- C10, amended: in a supporting environment and from the uninitialized module, `checkSettings`
returns true exactly for merged settings whose `searchInput` and `container` are both non-null
with a truthy `nodeType`. When it does and `searchInput` is moreover an event target, the options
hold that `searchInput`, a node, and that container, `init` returns, the active settings hold
exactly those two references and `keyupHandler` is bound on the search input only. For every
other argument, whether `init` returns or throws, `keyupHandler` is bound nowhere. -/
theorem init_binds_when_accepted_event_target (w : World) (options : Option Options)
    (hu : w.uninitialized = true) (hl : w.listeners = []) :
    (∃ w3, checkSettings
        { w with settings := (SettingsVar.obj (extend defaults (optionsOrEmpty options))) }
        = Completion.returned (acceptable (extend defaults (optionsOrEmpty options))) w3) ∧
    ((acceptable (extend defaults (optionsOrEmpty options))
        && (extend defaults (optionsOrEmpty options)).searchInput.isEventTarget) = true →
      ∃ i c, options = some { container := some c, searchInput := some (JSValue.node i) } ∧
        init true options w
          = Completion.returned ()
              { w with
                settings := (SettingsVar.obj { container := c, searchInput := JSValue.node i })
                listeners := [i] }) ∧
    ((acceptable (extend defaults (optionsOrEmpty options))
        && (extend defaults (optionsOrEmpty options)).searchInput.isEventTarget) = false →
      (init true options w).world.listeners = []) := by
  have hd := destroy_of_uninitialized w hu
  refine ⟨?_, ?_, ?_⟩
  · generalize extend defaults (optionsOrEmpty options) = m
    rcases m with ⟨c, si⟩
    cases c <;> cases si <;> exact ⟨_, rfl⟩
  · intro h
    have hm : ∃ i c, c.isNullish = false ∧ c.nodeTypeTruthy = true ∧
        extend defaults (optionsOrEmpty options)
          = { container := c, searchInput := JSValue.node i } := by
      generalize extend defaults (optionsOrEmpty options) = m at h
      rcases m with ⟨c, si⟩
      cases c <;> cases si <;>
        first
          | (refine absurd h ?_
             simp [acceptable, JSValue.isNullish, JSValue.nodeTypeTruthy, JSValue.isEventTarget]
             done)
          | exact ⟨_, _, by rfl, by rfl, rfl⟩
    obtain ⟨i, c, hcn, hct, hm⟩ := hm
    refine ⟨i, c, extend_eq_accepted options c i hcn hm, ?_⟩
    simp only [init, hd, hm]
    cases c <;> simp [JSValue.isNullish, JSValue.nodeTypeTruthy] at hcn hct <;>
      simp [checkSettings, JSValue.isNullish, JSValue.nodeTypeTruthy, addEventListener, hl]
  · intro h
    simp only [init, hd]
    generalize extend defaults (optionsOrEmpty options) = m at h ⊢
    rcases m with ⟨c, si⟩
    cases c <;> cases si <;>
      first
        | (refine absurd h ?_
           simp [acceptable, JSValue.isNullish, JSValue.nodeTypeTruthy, JSValue.isEventTarget]
           done)
        | simp [checkSettings, JSValue.isNullish, JSValue.nodeTypeTruthy, destroy,
            removeEventListener, Completion.world, hl]

/-- C10, amended, from the freshly loaded module: the configuration of the nodes 0 and 1 binds the
listener on node 1. -/
theorem init_binds_when_accepted_event_target_witness :
    (acceptable (extend defaults (optionsOrEmpty (nodeOptions 0 1)))
      && (extend defaults (optionsOrEmpty (nodeOptions 0 1))).searchInput.isEventTarget) = true ∧
    ∃ i c, nodeOptions 0 1 = some { container := some c, searchInput := some (JSValue.node i) } ∧
      init true (nodeOptions 0 1) freshWorld
        = Completion.returned ()
            { freshWorld with
              settings := (SettingsVar.obj { container := c, searchInput := JSValue.node i })
              listeners := [i] } :=
  ⟨rfl, (init_binds_when_accepted_event_target freshWorld (nodeOptions 0 1) rfl rfl).2.1 rfl⟩

/-! ## Matching -/

/-- C7, as stated, fails: the text "ırmak" (with the dotless `ı`, U+0131) contains the
whitespace-free word "ırmak", and the value "IRMAK" is that word in capitals, so it differs from it
only in letter case; but `toLowerCase` gives "irmak" for the value and leaves the text as it is,
and the child is hidden after `keyupHandler` has run. -/
theorem keyup_hides_dotless_i_word :
    differOnlyInCase (str "IRMAK") (str "ırmak") = true ∧
    whitespaceFree (str "ırmak") = true ∧
    toLowerCase (str "IRMAK") = str "irmak" ∧
    getData { textContent := str "ırmak", images := [], classList := [] } = str "ırmak" ∧
    ∃ w' c', keyupHandler
        (pageWorld [{ textContent := str "ırmak", images := [], classList := [] }] (str "IRMAK"))
        = Completion.returned () w' ∧
      (w'.dom 0).children[0]? = some c' ∧ c'.isHidden = true :=
  ⟨by decide, by decide, by decide, by decide, _, _, rfl, rfl, by decide⟩

/-- The capitals of the Latin-1 block, evaluated: a child with the text "une école" is shown for
the value "ÉCOLE". -/
theorem latin1_capitals_evaluated :
    toLowerCase (str "ÉCOLE") = str "école" ∧
    differOnlyInCase (str "ÉCOLE") (str "école") = true ∧
    (searchChild (toLowerCase (str "ÉCOLE"))
      { textContent := str "une école", images := [], classList := ["is-hidden"] }).isHidden
      = false := by
  decide

/-- C7, amended: matching is case-insensitive for text of the Basic Latin and Latin-1 blocks. When
the text of a direct child contains a whitespace-free word and the value of the input differs from
that word only in letter case, both made of code points below U+0100, the child is visible after
`keyupHandler` has run. -/
theorem keyup_matches_latin1_in_any_case (w : World) (s : Settings) (i j n : Nat) (c : Element)
    (word v : JSString) (hs : w.settings = SettingsVar.obj s)
    (hc : s.container = JSValue.node j) (hi : s.searchInput = JSValue.node i)
    (hn : (w.dom j).children[n]? = some c) (hword : word <:+: c.textContent)
    (hfree : whitespaceFree word = true) (hv : (w.dom i).value = v)
    (hcase : differOnlyInCase v word = true)
    (hlv : isLatin1 v = true) (hlw : isLatin1 word = true) :
    ∃ w' c', keyupHandler w = Completion.returned () w' ∧ (w'.dom j).children[n]? = some c' ∧
      c'.isHidden = false := by
  have hk : keyupHandler w = search (toLowerCase v) w := by
    unfold keyupHandler
    rw [hs]
    simp only [hi, hv]
  rw [hk, differOnlyInCase_toLowerCase v word hcase hlv hlw]
  exact search_child_visible _ w s j n c hs hc hn
    (toLowerCase_infix_getData c word hfree (hword.trans (textContent_infix_rawContent c)))

/-- C7, amended, on the scenario page: the child "Red Apple" is visible after a keyup while the
input holds "APPLE". -/
theorem keyup_matches_latin1_in_any_case_witness :
    differOnlyInCase (str "APPLE") (str "Apple") = true ∧
    isLatin1 (str "APPLE") = true ∧ isLatin1 (str "Apple") = true ∧
    ∃ w' c', keyupHandler (scenarioWorld (str "APPLE")) = Completion.returned () w' ∧
      (w'.dom 0).children[0]? = some c' ∧ c'.isHidden = false :=
  ⟨by decide, by decide, by decide,
    keyup_matches_latin1_in_any_case (scenarioWorld (str "APPLE")) _ 1 0 0
      { textContent := str "Red Apple", images := [], classList := [] }
      (str "Apple") (str "APPLE") rfl rfl rfl rfl ⟨str "Red ", [], rfl⟩ (by decide) rfl
      (by decide) (by decide) (by decide)⟩

/-- C8: matching does not depend on the layout of the whitespace in the content. A direct child
without images whose text is a sequence of non-empty whitespace-free words, separated by non-empty
runs of whitespace and possibly preceded by whitespace, is visible after the search of the
lowercased words joined by single spaces, whatever follows the last word (a run of whitespace, or
nothing). -/
theorem search_ignores_whitespace_layout (w : World) (s : Settings) (j n : Nat) (c : Element)
    (lead first : JSString) (rest : List (JSString × JSString)) (tail : JSString)
    (hs : w.settings = SettingsVar.obj s) (hc : s.container = JSValue.node j)
    (hn : (w.dom j).children[n]? = some c) (himg : c.images = [])
    (htext : c.textContent = wordsText lead first rest tail)
    (hlead : allWhitespace lead = true) (hfirst : first ≠ [])
    (hfree : whitespaceFree first = true) (hrest : wellSeparated rest = true) :
    ∃ w' c', search (wordsQuery first rest) w = Completion.returned () w' ∧
      (w'.dom j).children[n]? = some c' ∧ c'.isHidden = false := by
  exact search_child_visible _ w s j n c hs hc hn
    (wordsQuery_prefix_getData c lead first rest tail himg htext hlead hfirst hfree hrest).isInfix

/-- C8, for the text "Hello\n\n  World" and the query "hello world". -/
theorem search_ignores_whitespace_layout_witness :
    wordsText [] (str "Hello") [(str "\n\n  ", str "World")] [] = str "Hello\n\n  World" ∧
    wordsQuery (str "Hello") [(str "\n\n  ", str "World")] = str "hello world" ∧
    ∃ w' c', search (wordsQuery (str "Hello") [(str "\n\n  ", str "World")])
        (pageWorld [{ textContent := str "Hello\n\n  World", images := [], classList := [] }] [])
        = Completion.returned () w' ∧
      (w'.dom 0).children[0]? = some c' ∧ c'.isHidden = false :=
  ⟨by decide, by decide,
    search_ignores_whitespace_layout
      (pageWorld [{ textContent := str "Hello\n\n  World", images := [], classList := [] }] [])
      _ 0 0 { textContent := str "Hello\n\n  World", images := [], classList := [] }
      [] (str "Hello") [(str "\n\n  ", str "World")] [] rfl rfl rfl rfl (by decide) (by decide)
      (by decide) (by decide) (by decide)⟩

/-- C9: the `alt` of an image contributes to matching. When a whitespace-free query occurs in the
lowercased `alt` of an image below a direct child, the child is visible after the search, whatever
its text, the empty text included. -/
theorem search_matches_alt (w : World) (s : Settings) (j n : Nat) (c : Element) (image : Img)
    (q : JSString) (hs : w.settings = SettingsVar.obj s) (hc : s.container = JSValue.node j)
    (hn : (w.dom j).children[n]? = some c) (himg : image ∈ c.images)
    (hfree : whitespaceFree q = true) (hq : q <:+: toLowerCase image.alt) :
    ∃ w' c', search q w = Completion.returned () w' ∧ (w'.dom j).children[n]? = some c' ∧
      c'.isHidden = false := by
  refine search_child_visible q w s j n c hs hc hn ?_
  unfold getData
  rw [trim_toLowerCase]
  exact infix_trim q _ hfree
    (hq.trans (infix_map_lowerChar (alt_infix_rawContent c image himg)))

/-- C9, for a child without text and with an image whose `alt` is "Kitten", and the query
"kitten". -/
theorem search_matches_alt_witness :
    ∃ w' c', search (str "kitten")
        (pageWorld [{ textContent := [], images := [{ alt := str "Kitten" }],
                      classList := ["is-hidden"] }] [])
        = Completion.returned () w' ∧
      (w'.dom 0).children[0]? = some c' ∧ c'.isHidden = false :=
  search_matches_alt
    (pageWorld [{ textContent := [], images := [{ alt := str "Kitten" }],
                  classList := ["is-hidden"] }] [])
    _ 0 0 { textContent := [], images := [{ alt := str "Kitten" }], classList := ["is-hidden"] }
    { alt := str "Kitten" } (str "kitten") rfl rfl rfl (by decide) (by decide)
    ⟨[], [], by decide⟩

/-! ## The life cycle -/

/-- C11: from the uninitialized module without listener, `init` with a configuration of two nodes
followed by `destroy` returns and leaves the module uninitialized with `settings` null and the
listener no longer on the search input: the world differs from the starting one in the two module
variables `destroy` resets and in nothing else. -/
theorem init_then_destroy_restores (w : World) (i j : Nat) (hu : w.uninitialized = true)
    (hl : w.listeners = []) :
    ∃ w', (init true (nodeOptions j i) w).andThen destroy = Completion.returned () w' ∧
      w' = { w with settings := SettingsVar.null, eventTimeout := TimeoutVar.null } ∧
      w'.uninitialized = true ∧ i ∉ w'.listeners ∧ w'.listeners = w.listeners := by
  have hd := destroy_of_uninitialized w hu
  have hi := init_valid_of_destroy w w () i j hd
  refine ⟨{ w with settings := SettingsVar.null, eventTimeout := TimeoutVar.null }, ?_, rfl, rfl,
    ?_, rfl⟩
  · unfold nodeOptions
    rw [hi]
    simp [Completion.andThen, addEventListener, hl, destroy, removeEventListener]
  · simp [hl]

/-- C11, from the freshly loaded module, with the search input 1. -/
theorem init_then_destroy_restores_witness :
    ∃ w', (init true (nodeOptions 0 1) freshWorld).andThen destroy = Completion.returned () w' ∧
      w' = { freshWorld with settings := SettingsVar.null, eventTimeout := TimeoutVar.null } ∧
      w'.uninitialized = true ∧ 1 ∉ w'.listeners ∧ w'.listeners = freshWorld.listeners :=
  init_then_destroy_restores freshWorld 1 0 rfl rfl

/-- C12: `destroy` called while the module is uninitialized returns without throwing and leaves
the world as it was: the settings stay unset and the listeners are the same. -/
theorem destroy_uninitialized_is_noop (w : World) (hu : w.uninitialized = true) :
    destroy w = Completion.returned () w ∧ (destroy w).hasThrown = false ∧
      (destroy w).world.uninitialized = true ∧ (destroy w).world.listeners = w.listeners := by
  have hd := destroy_of_uninitialized w hu
  rw [hd]
  exact ⟨rfl, rfl, hu, rfl⟩

/-- C12, before any `init`. -/
theorem destroy_uninitialized_is_noop_witness :
    destroy freshWorld = Completion.returned () freshWorld ∧
      (destroy freshWorld).hasThrown = false ∧
      (destroy freshWorld).world.uninitialized = true ∧
      (destroy freshWorld).world.listeners = freshWorld.listeners :=
  destroy_uninitialized_is_noop freshWorld rfl

/-- C13: when the feature test fails, `init` returns at once for every argument and from every
state: nothing is thrown and the world, with its settings and listeners, is unchanged. -/
theorem init_unsupported_is_noop (options : Option Options) (w : World) :
    init false options w = Completion.returned () w ∧
      (init false options w).hasThrown = false ∧
      (init false options w).world.settings = w.settings ∧
      (init false options w).world.listeners = w.listeners := by
  have h : init false options w = Completion.returned () w := by
    simp [init]
  rw [h]
  exact ⟨rfl, rfl, rfl, rfl⟩

/-! ## Relations between filtering passes -/

theorem getData_searchChild (q : JSString) (e : Element) :
    getData (searchChild q e) = getData e := by
  unfold getData rawContent
  rw [searchChild_textContent, searchChild_images]

theorem searchChild_isHidden_searchChild (q1 q2 : JSString) (e : Element) :
    (searchChild q2 (searchChild q1 e)).isHidden = (searchChild q2 e).isHidden := by
  by_cases h : q2 <:+: getData e
  · rw [ searchChild_isHidden_of_infix q2 e h,
      searchChild_isHidden_of_infix q2 _ (by rw [getData_searchChild]; exact h)]
  · rw [ searchChild_isHidden_of_not_infix q2 e h,
      searchChild_isHidden_of_not_infix q2 _ (by rw [getData_searchChild]; exact h)]

theorem search_children (q : JSString) (w : World) (s : Settings) (j : Nat)
    (hs : w.settings = SettingsVar.obj s) (hc : s.container = JSValue.node j) :
    ∃ w', search q w = Completion.returned () w' ∧ w'.settings = w.settings ∧
      (w'.dom j).children = (w.dom j).children.map (searchChild q) := by
  refine ⟨_, search_eq q w s j hs hc, rfl, ?_⟩
  simp

theorem visible_after_search_iff (q : JSString) (e : Element) :
    (searchChild q e).isHidden = false ↔ q <:+: getData e := by
  constructor
  · intro h
    by_contra hn
    rw [ searchChild_isHidden_of_not_infix q e hn] at h
    exact absurd h (by decide)
  · exact searchChild_isHidden_of_infix q e

/-- C14: the filtering pass recomputes the markers from scratch. Whatever markers the children
carry, the markers after `search(q1); search(q2)` are those after `search(q2)` alone, and the
markers after `search(q1)` twice are those after `search(q1)` once. -/
theorem search_recomputes_markers (w : World) (s : Settings) (j : Nat) (q1 q2 : JSString)
    (hs : w.settings = SettingsVar.obj s) (hc : s.container = JSValue.node j) :
    (∃ w12 w2, (search q1 w).andThen (search q2) = Completion.returned () w12 ∧
      search q2 w = Completion.returned () w2 ∧ markers w12 j = markers w2 j) ∧
    (∃ w11 w1, (search q1 w).andThen (search q1) = Completion.returned () w11 ∧
      search q1 w = Completion.returned () w1 ∧ markers w11 j = markers w1 j) := by
  have key : ∀ qa qb : JSString,
      ∃ wab wb, (search qa w).andThen (search qb) = Completion.returned () wab ∧
        search qb w = Completion.returned () wb ∧ markers wab j = markers wb j := by
    intro qa qb
    obtain ⟨wa, ha, hsa, hca⟩ := search_children qa w s j hs hc
    obtain ⟨wb, hb, _, hcb⟩ := search_children qb w s j hs hc
    obtain ⟨wab, hab, _, hcab⟩ := search_children qb wa s j (hsa.trans hs) hc
    refine ⟨wab, wb, ?_, hb, ?_⟩
    · rw [ha]
      exact hab
    · simp only [markers, hcab, hca, hcb, List.map_map]
      apply List.map_congr_left
      intro e _
      exact searchChild_isHidden_searchChild qa qb e
  exact ⟨key q1 q2, key q1 q1⟩

/-- C14, on the scenario page, where C starts hidden: "car" after "apple" gives the markers of
"car" alone. -/
theorem search_recomputes_markers_witness :
    (∃ w12 w2, (search (str "apple") (scenarioWorld [])).andThen (search (str "car"))
        = Completion.returned () w12 ∧
      search (str "car") (scenarioWorld []) = Completion.returned () w2 ∧
      markers w12 0 = markers w2 0) ∧
    (∃ w11 w1, (search (str "apple") (scenarioWorld [])).andThen (search (str "apple"))
        = Completion.returned () w11 ∧
      search (str "apple") (scenarioWorld []) = Completion.returned () w1 ∧
      markers w11 0 = markers w1 0) :=
  search_recomputes_markers (scenarioWorld []) _ 0 (str "apple") (str "car") rfl rfl

/-- C16: lengthening the query only narrows the result. When `q1` is a substring of `q2`, every
direct child that is visible after `search(q2)` is visible after `search(q1)`. -/
theorem longer_query_narrows (w : World) (s : Settings) (j : Nat) (q1 q2 : JSString)
    (hs : w.settings = SettingsVar.obj s) (hc : s.container = JSValue.node j)
    (hq : q1 <:+: q2) :
    ∃ w1 w2, search q1 w = Completion.returned () w1 ∧
      search q2 w = Completion.returned () w2 ∧
      ∀ (n : Nat) (c2 : Element), (w2.dom j).children[n]? = some c2 → c2.isHidden = false →
        ∃ c1, (w1.dom j).children[n]? = some c1 ∧ c1.isHidden = false := by
  obtain ⟨w1, h1, _, hc1⟩ := search_children q1 w s j hs hc
  obtain ⟨w2, h2, _, hc2⟩ := search_children q2 w s j hs hc
  refine ⟨w1, w2, h1, h2, ?_⟩
  intro n c2 hn hv
  rw [hc2, List.getElem?_map] at hn
  cases hcn : (w.dom j).children[n]? with
  | none => rw [hcn] at hn; cases hn
  | some c =>
    rw [hcn] at hn
    simp only [Option.map_some', Option.some.injEq] at hn
    subst hn
    refine ⟨searchChild q1 c, ?_, ?_⟩
    · rw [hc1, List.getElem?_map, hcn]
      rfl
    · exact (visible_after_search_iff q1 c).mpr
        (hq.trans ((visible_after_search_iff q2 c).mp hv))

/-- C16, on the scenario page, for "app" typed on to "apple". -/
theorem longer_query_narrows_witness :
    str "app" <:+: str "apple" ∧
    ∃ w1 w2, search (str "app") (scenarioWorld []) = Completion.returned () w1 ∧
      search (str "apple") (scenarioWorld []) = Completion.returned () w2 ∧
      ∀ (n : Nat) (c2 : Element), (w2.dom 0).children[n]? = some c2 → c2.isHidden = false →
        ∃ c1, (w1.dom 0).children[n]? = some c1 ∧ c1.isHidden = false :=
  ⟨⟨[], str "le", rfl⟩,
    longer_query_narrows (scenarioWorld []) _ 0 (str "app") (str "apple") rfl rfl
      ⟨[], str "le", rfl⟩⟩

/-! ## The shape of the content string -/

theorem replaceRuns_space_eq (b : Bool) (s : JSString) :
    ∀ c ∈ replaceRuns b s, isSpace c = true → c = ' ' := by
  induction s generalizing b with
  | nil => intro c hc; cases hc
  | cons a as ih =>
    intro c hmem hsp
    cases ha : isSpace a
    · rw [replaceRuns_cons_other b a as ha] at hmem
      rcases List.mem_cons.mp hmem with e | hin
      · rw [e, ha] at hsp
        exact absurd hsp (by decide)
      · exact ih false c hin hsp
    · rw [replaceRuns_cons_space b a as ha] at hmem
      cases b
      · simp only [Bool.false_eq_true, if_false] at hmem
        rcases List.mem_cons.mp hmem with e | hin
        · exact e
        · exact ih true c hin hsp
      · simp only [if_true] at hmem
        exact ih true c hmem hsp

/-- Inside a run the replacement writes nothing until the run has ended. -/
theorem replaceRuns_true_head (s : JSString) (c : Char) (rest : JSString)
    (h : replaceRuns true s = c :: rest) : isSpace c = false := by
  induction s with
  | nil => cases h
  | cons a as ih =>
    cases ha : isSpace a
    · rw [replaceRuns_cons_other true a as ha] at h
      injection h with h1 _
      rw [← h1]
      exact ha
    · rw [replaceRuns_cons_space true a as ha, if_pos rfl] at h
      exact ih h

theorem replaceRuns_no_double (b : Bool) (s : JSString) :
    ¬ [' ', ' '] <:+: replaceRuns b s := by
  induction s generalizing b with
  | nil =>
    intro h
    have := List.infix_nil.mp h
    cases this
  | cons a as ih =>
    intro h
    cases ha : isSpace a
    · rw [replaceRuns_cons_other b a as ha] at h
      rcases List.infix_cons_iff.mp h with hp | hi
      · have e := (List.cons_prefix_cons.mp hp).1
        rw [← e] at ha
        exact absurd ha (by decide)
      · exact ih false hi
    · rw [replaceRuns_cons_space b a as ha] at h
      cases b
      · simp only [Bool.false_eq_true, if_false] at h
        rcases List.infix_cons_iff.mp h with hp | hi
        · have hp2 := (List.cons_prefix_cons.mp hp).2
          obtain ⟨t, ht⟩ := hp2
          have hhead := replaceRuns_true_head as ' ' t (by rw [← ht]; rfl)
          exact absurd hhead (by decide)
        · exact ih true hi
      · simp only [if_true] at h
        exact ih true h

theorem getData_eq_replaceRuns (e : Element) :
    getData e = replaceRuns false (replaceLeading (toLowerCase (rawContent e))) := by
  unfold getData
  rw [trim_toLowerCase]
  rfl

theorem not_infix_getData (e : Element) (q : JSString)
    (hq : '\t' ∈ q ∨ '\n' ∈ q ∨ [' ', ' '] <:+: q) : ¬ q <:+: getData e := by
  intro h
  rw [getData_eq_replaceRuns] at h
  rcases hq with ht | hn | hd
  · have := replaceRuns_space_eq false _ '\t' (h.mem ht) (by decide)
    exact absurd this (by decide)
  · have := replaceRuns_space_eq false _ '\n' (h.mem hn) (by decide)
    exact absurd this (by decide)
  · exact replaceRuns_no_double false _ (hd.trans h)

/-- C17: the content string is normalised and the query is not. Every whitespace character of the
string `getData` returns is a U+0020 space and no two spaces are adjacent; so the search of a
query that contains a tab, a newline or two consecutive spaces hides every direct child. -/
theorem unnormalised_query_hides_all (w : World) (s : Settings) (j : Nat) (q : JSString)
    (hs : w.settings = SettingsVar.obj s) (hc : s.container = JSValue.node j)
    (hq : '\t' ∈ q ∨ '\n' ∈ q ∨ [' ', ' '] <:+: q) :
    (∀ e : Element, (∀ c ∈ getData e, isSpace c = true → c = ' ') ∧
      ¬ [' ', ' '] <:+: getData e) ∧
    ∃ w', search q w = Completion.returned () w' ∧
      (w'.dom j).children.length = (w.dom j).children.length ∧
      ∀ c ∈ (w'.dom j).children, c.isHidden = true := by
  constructor
  · intro e
    rw [getData_eq_replaceRuns]
    exact ⟨replaceRuns_space_eq false _, replaceRuns_no_double false _⟩
  · obtain ⟨w', h, _, hch⟩ := search_children q w s j hs hc
    refine ⟨w', h, by rw [hch, List.length_map], ?_⟩
    intro c hmem
    rw [hch, List.mem_map] at hmem
    obtain ⟨e, _, rfl⟩ := hmem
    exact searchChild_isHidden_of_not_infix q e (not_infix_getData e q hq)

/-- C17, on the scenario page, for the query "red  apple" with two spaces. -/
theorem unnormalised_query_hides_all_witness :
    (∀ e : Element, (∀ c ∈ getData e, isSpace c = true → c = ' ') ∧
      ¬ [' ', ' '] <:+: getData e) ∧
    ∃ w', search (str "red  apple") (scenarioWorld []) = Completion.returned () w' ∧
      (w'.dom 0).children.length = ((scenarioWorld []).dom 0).children.length ∧
      ∀ c ∈ (w'.dom 0).children, c.isHidden = true :=
  unnormalised_query_hides_all (scenarioWorld []) _ 0 (str "red  apple") rfl rfl
    (Or.inr (Or.inr ⟨str "red", str "apple", rfl⟩))

/-! ## The rejected configuration and the reachable states -/

theorem destroy_of_nullish (w : World) (s : Settings) (hs : w.settings = SettingsVar.obj s)
    (hn : s.searchInput.isNullish = true) : destroy w = Completion.threw w := by
  unfold destroy
  rw [hs]
  cases hi : s.searchInput <;> rw [hi] at hn <;> simp [JSValue.isNullish] at hn <;>
    simp only [hi]

theorem init_of_nullish (w : World) (s : Settings) (o : Option Options)
    (hs : w.settings = SettingsVar.obj s) (hn : s.searchInput.isNullish = true) :
    init true o w = Completion.threw w := by
  simp [init, destroy_of_nullish w s hs hn]

theorem runCalls_of_nullish (w : World) (s : Settings) (calls : List Call)
    (hs : w.settings = SettingsVar.obj s) (hn : s.searchInput.isNullish = true) :
    runCalls true calls w = w := by
  induction calls with
  | nil => rfl
  | cons call calls ih =>
    have hrun : (call.run true w).world = w := by
      cases call with
      | init o => simp [Call.run, init_of_nullish w s o hs hn, Completion.world]
      | destroy => simp [Call.run, destroy_of_nullish w s hs hn, Completion.world]
    simp only [runCalls, hrun]
    exact ih

/-- C15: `init` with a configuration whose `searchInput` is null or missing, called on a module at
rest, throws and leaves the rejected configuration in `settings`, with no listener bound. From then
on every `destroy` and every `init`, whatever its argument, throws at the first `destroy` and
leaves the world as it is, so after any sequence of calls the world is the same and no listener is
bound. -/
theorem rejected_searchInput_wedges (w : World) (options : Option Options) (h : w.settled)
    (hnull : (extend defaults (optionsOrEmpty options)).searchInput.isNullish = true) :
    ∃ w', init true options w = Completion.threw w' ∧
      w'.settings = SettingsVar.obj (extend defaults (optionsOrEmpty options)) ∧
      w'.listeners = [] ∧
      (∀ o, init true o w' = Completion.threw w') ∧
      destroy w' = Completion.threw w' ∧
      ∀ calls, runCalls true calls w' = w' ∧ (runCalls true calls w').listeners = [] := by
  obtain ⟨w1, hd, hl, _, _⟩ := destroy_of_settled w h
  have hw' : ∃ w', w'.settings = SettingsVar.obj (extend defaults (optionsOrEmpty options)) ∧
      w'.listeners = [] ∧ init true options w = Completion.threw w' := by
    refine ⟨{ w1 with
        settings := SettingsVar.obj (extend defaults (optionsOrEmpty options))
        console := w1.console ++ [ConsoleLine.warn "searchInput and/or container are undefined."] },
      rfl, hl, ?_⟩
    simp only [init, hd]
    simp only [checkSettings, hnull, Bool.true_or, if_true, Bool.not_true, Bool.not_false]
    rw [destroy_of_nullish _ _ rfl hnull]
    rfl
  obtain ⟨w', hs', hl', hinit⟩ := hw'
  refine ⟨w', hinit, hs', hl', fun o => init_of_nullish w' _ o hs' hnull,
    destroy_of_nullish w' _ hs' hnull, fun calls => ?_⟩
  rw [runCalls_of_nullish w' _ calls hs' hnull]
  exact ⟨rfl, hl'⟩

/-- C15, for `init()` on the freshly loaded module. -/
theorem rejected_searchInput_wedges_witness :
    ∃ w', init true none freshWorld = Completion.threw w' ∧
      w'.settings = SettingsVar.obj (extend defaults (optionsOrEmpty none)) ∧
      w'.listeners = [] ∧
      (∀ o, init true o w' = Completion.threw w') ∧
      destroy w' = Completion.threw w' ∧
      ∀ calls, runCalls true calls w' = w' ∧ (runCalls true calls w').listeners = [] :=
  rejected_searchInput_wedges freshWorld none (Or.inl ⟨rfl, rfl⟩) rfl

theorem destroy_threw_eq (w w1 : World) (h : destroy w = Completion.threw w1) : w1 = w := by
  unfold destroy at h
  cases hs : w.settings with
  | undefined => rw [hs] at h; cases h
  | null => rw [hs] at h; cases h
  | obj s =>
    rw [hs] at h
    cases hi : s.searchInput <;> simp only [hi] at h <;> first
      | (injection h with h1; exact h1.symm)
      | cases h

theorem destroy_returned_listeners (w w1 : World) (u : Unit) (hco : w.coherent)
    (h : destroy w = Completion.returned u w1) : w1.listeners = [] := by
  unfold destroy at h
  cases hs : w.settings with
  | undefined =>
    rw [hs] at h
    injection h with _ h2
    rcases hco with hl | ⟨s', i, hs', _, _⟩
    · rw [← h2]; exact hl
    · rw [hs] at hs'; cases hs'
  | null =>
    rw [hs] at h
    injection h with _ h2
    rcases hco with hl | ⟨s', i, hs', _, _⟩
    · rw [← h2]; exact hl
    · rw [hs] at hs'; cases hs'
  | obj s =>
    rw [hs] at h
    cases hi : s.searchInput with
    | undefined => simp only [hi] at h; cases h
    | null => simp only [hi] at h; cases h
    | plain => simp only [hi] at h; cases h
    | fakeNode => simp only [hi] at h; cases h
    | node t =>
      simp only [hi] at h
      injection h with _ h2
      rw [← h2]
      rcases hco with hl | ⟨s', i, hs', hsi, hl⟩
      · simp [removeEventListener, hl]
      · rw [hs] at hs'
        injection hs' with hs''
        rw [← hs'', hi] at hsi
        injection hsi with hi'
        simp [removeEventListener, hl, hi']
    | eventTarget t =>
      simp only [hi] at h
      injection h with _ h2
      rw [← h2]
      rcases hco with hl | ⟨s', i, hs', hsi, hl⟩
      · simp [removeEventListener, hl]
      · rw [hs] at hs'
        injection hs' with hs''
        rw [← hs'', hi] at hsi
        cases hsi

theorem destroy_coherent (w : World) (hco : w.coherent) : (destroy w).world.coherent := by
  cases hd : destroy w with
  | threw w1 =>
    rw [destroy_threw_eq w w1 hd]
    exact hco
  | returned u w1 => exact Or.inl (destroy_returned_listeners w w1 u hco hd)

theorem init_coherent (supports : Bool) (options : Option Options) (w : World)
    (hco : w.coherent) : (init supports options w).world.coherent := by
  cases supports with
  | false => simpa [init, Completion.world] using hco
  | true =>
    cases hd : destroy w with
    | threw w1 =>
      have e := destroy_threw_eq w w1 hd
      subst e
      simpa [init, hd, Completion.world] using hco
    | returned u w1 =>
      have hl := destroy_returned_listeners w w1 u hco hd
      simp only [init, hd, Bool.not_true, Bool.false_eq_true, if_false]
      generalize extend defaults (optionsOrEmpty options) = m
      rcases m with ⟨c, si⟩
      cases c <;> cases si <;>
        simp [World.coherent, checkSettings, JSValue.isNullish, JSValue.nodeTypeTruthy, destroy,
          removeEventListener, addEventListener, Completion.world, hl]

theorem runCalls_coherent (supports : Bool) (calls : List Call) (w : World) (hco : w.coherent) :
    (runCalls supports calls w).coherent := by
  induction calls generalizing w with
  | nil => exact hco
  | cons call calls ih =>
    apply ih
    cases call with
    | init o => exact init_coherent supports o w hco
    | destroy => exact destroy_coherent w hco

/-- C18: in every state reached from the freshly loaded module by a sequence of `init` and
`destroy` calls, with any arguments, returning or throwing, at most one element carries
`keyupHandler`; while the settings are unset no element carries it; and an element that carries it
is the `searchInput` of the settings. -/
theorem reachable_listeners_coherent (supports : Bool) (dom : Nat → DomNode)
    (calls : List Call) :
    (runCalls supports calls (initialWorld dom)).listeners.length ≤ 1 ∧
    ((runCalls supports calls (initialWorld dom)).uninitialized = true →
      (runCalls supports calls (initialWorld dom)).listeners = []) ∧
    ∀ t ∈ (runCalls supports calls (initialWorld dom)).listeners,
      ∃ s, (runCalls supports calls (initialWorld dom)).settings = SettingsVar.obj s ∧
        s.searchInput = JSValue.node t := by
  have hco := runCalls_coherent supports calls (initialWorld dom) (Or.inl rfl)
  generalize runCalls supports calls (initialWorld dom) = w at hco
  rcases hco with hl | ⟨s, i, hs, hsi, hl⟩
  · refine ⟨by simp [hl], fun _ => hl, ?_⟩
    intro t ht
    rw [hl] at ht
    cases ht
  · refine ⟨by simp [hl], ?_, ?_⟩
    · intro hu
      simp [World.uninitialized, hs] at hu
    · intro t ht
      rw [hl, List.mem_singleton] at ht
      exact ⟨s, hs, by rw [ht]; exact hsi⟩

/-- C18, after a rejected `init`, a valid `init`, a second valid `init` on another input, and a
`destroy` in between: the listener is on the last search input only. -/
theorem reachable_listeners_coherent_witness :
    (runCalls true
      [Call.init (nodeOptions 0 1), Call.destroy,
        Call.init (some { container := none, searchInput := some (JSValue.node 1) }),
        Call.init (nodeOptions 0 1), Call.init (nodeOptions 0 2)] freshWorld).listeners = [2] ∧
    (runCalls true
      [Call.init (nodeOptions 0 1), Call.destroy,
        Call.init (some { container := none, searchInput := some (JSValue.node 1) }),
        Call.init (nodeOptions 0 1), Call.init (nodeOptions 0 2)]
      (initialWorld (pageDom scenarioChildren []))).listeners.length ≤ 1 :=
  ⟨by decide,
    (reachable_listeners_coherent true (pageDom scenarioChildren [])
      [Call.init (nodeOptions 0 1), Call.destroy,
        Call.init (some { container := none, searchInput := some (JSValue.node 1) }),
        Call.init (nodeOptions 0 1), Call.init (nodeOptions 0 2)]).1⟩

end ArticleSearch
